import Mathlib

/-!
Verification of the end-to-end encryption core of the nochat desktop client
(packages/desktop/src-tauri/src/crypto).  The Rust sources are shallowly
embedded: pure functions become Lean functions, mutation of `&mut self`
becomes explicit state passing, fallible operations return `Except`.
Cryptographic primitives provided by third-party crates (vodozemac,
x25519-dalek, curve25519-dalek, hkdf, sha2, serde_json) are modelled as
fields of a primitives structure; the mathematical identities those
libraries guarantee (X25519 commutativity, the Edwards-to-Montgomery
birational correspondence, Ed25519 signature validity and length) are
proof fields of that structure, so every theorem holds for any correct
implementation of the primitives.
-/

/-- Byte strings are lists of naturals; values are kept below 256 where the
source performs `as u8` casts, which are modelled as `% 256`. -/
abbrev Bytes := List Nat

/-- Error type mirroring crypto/errors.rs `CryptoError` (payloads are the
formatted message strings). -/
inductive CryptoError where
  | KeyGenerationFailed (msg : String)
  | InvalidKey (msg : String)
  | KeyExchangeFailed (msg : String)
  | X3dhError (msg : String)
  | RatchetError (msg : String)
  | SignatureError (msg : String)
  | EncryptionError (msg : String)
  | DecryptionError (msg : String)
  | SessionNotFound (msg : String)
  | SessionCorrupted (msg : String)
  | NoPrekeysAvailable (msg : String)
  | DatabaseError (msg : String)
  | SerializationError (msg : String)
  | VodozemacError (msg : String)
  | InternalError (msg : String)
  deriving DecidableEq, Repr

/-- Lowercase hexadecimal digit characters, as used by the `hex` crate:
codepoint 48 onward for the decimal digits, 97 onward for a through f. -/
def hexChars : List Char :=
  (List.range 16).map fun n => Char.ofNat (if n < 10 then 48 + n else 87 + n)

/-- Two lowercase hex characters of one byte (`hex::encode` per byte). -/
def byteToHex (b : Nat) : List Char :=
  [hexChars.getD (b / 16 % 16) '0', hexChars.getD (b % 16) '0']

/-- Model of `hex::encode`: lowercase hex encoding of a byte string. -/
def hexEncode (bs : Bytes) : String :=
  ⟨bs.flatMap byteToHex⟩

/-- Flip bit `i` of a byte string (bit `i % 8` of byte `i / 8`). -/
def flipBit (bs : Bytes) (i : Nat) : Bytes :=
  bs.set (i / 8) (Nat.xor (bs.getD (i / 8) 0) (2 ^ (i % 8)))

/-- Primitives used by the key and X3DH layer.  Function fields model the
third-party crypto crates; proof fields state the identities a correct
X25519 / Ed25519 / conversion implementation satisfies.  Keys are abstract
naturals; `encode…`/`parse…` mediate between keys and their byte strings. -/
structure X3dhPrims where
  dh : Nat → Nat → Bytes
  curvePub : Nat → Nat
  edPub : Nat → Nat
  convSec : Nat → Nat
  convPub : Nat → Option Nat
  sign : Nat → Bytes → Bytes
  edVerify : Nat → Bytes → Bytes → Bool
  hkdfSha256 : Option Bytes → Bytes → Bytes → Nat → Bytes
  encodeCurvePub : Nat → Bytes
  parseCurvePub : Bytes → Option Nat
  encodeEdPub : Nat → Bytes
  parseEdPub : Bytes → Option Nat
  dh_comm : ∀ s t, dh s (curvePub t) = dh t (curvePub s)
  conv_compat : ∀ seed, convPub (edPub seed) = some (curvePub (convSec seed))
  verify_sign : ∀ s m, edVerify (edPub s) m (sign s m) = true
  sign_len : ∀ s m, m.length = 32 → (sign s m).length = 64
  parse_encode_ed : ∀ k, parseEdPub (encodeEdPub k) = some k
  parse_encode_curve : ∀ k, parseCurvePub (encodeCurvePub k) = some k
  encode_ed_len : ∀ k, (encodeEdPub k).length = 32
  encode_curve_len : ∀ k, (encodeCurvePub k).length = 32

/-- Long-term Ed25519 identity key pair (crypto/keys.rs `IdentityKeyPair`). -/
structure IdentityKeyPair where
  public : Nat
  secret : Nat
  deriving DecidableEq, Repr

/-- Well-formed identity pair: the public key is derived from the secret,
as `IdentityKeyPair::generate` guarantees. -/
def IdentityKeyPair.wf (P : X3dhPrims) (kp : IdentityKeyPair) : Prop :=
  kp.public = P.edPub kp.secret

/-- Curve25519 DH key pair (crypto/keys.rs `Curve25519KeyPair`). -/
structure Curve25519KeyPair where
  public : Nat
  secret : Nat
  deriving DecidableEq, Repr

/-- Well-formed curve pair: public is the base-point multiple of the secret,
as `Curve25519KeyPair::generate` guarantees. -/
def Curve25519KeyPair.wf (P : X3dhPrims) (kp : Curve25519KeyPair) : Prop :=
  kp.public = P.curvePub kp.secret

/-- Model of `Curve25519KeyPair::diffie_hellman`. -/
def Curve25519KeyPair.diffie_hellman (P : X3dhPrims) (kp : Curve25519KeyPair)
    (their_public : Nat) : Bytes :=
  P.dh kp.secret their_public

/-- Signed prekey record (crypto/keys.rs `SignedPreKey`). -/
structure SignedPreKey where
  key_id : Nat
  public_key : Bytes
  signature : Bytes
  created_at : Int
  deriving DecidableEq, Repr

/-- Model of `SignedPreKey::new`; `now` stands for the
`chrono::Utc::now().timestamp()` call. -/
def SignedPreKey.new (P : X3dhPrims) (key_id : Nat) (key_pair : Curve25519KeyPair)
    (identity : IdentityKeyPair) (now : Int) : SignedPreKey :=
  { key_id := key_id
    public_key := P.encodeCurvePub key_pair.public
    signature := P.sign identity.secret (P.encodeCurvePub key_pair.public)
    created_at := now }

/-- Model of `SignedPreKey::verify`: `Ed25519Signature::from_slice` fails
unless the signature is exactly 64 bytes, then the Ed25519 verification runs. -/
def SignedPreKey.verify (P : X3dhPrims) (spk : SignedPreKey)
    (identity_public : Nat) : Except CryptoError Unit :=
  if spk.signature.length = 64 then
    if P.edVerify identity_public spk.public_key spk.signature then .ok ()
    else .error (CryptoError.SignatureError "Signature verification failed")
  else .error (CryptoError.SignatureError "Invalid signature format")

/-- Model of `SignedPreKey::get_public_key`: 32-byte length check then
`Curve25519PublicKey::from_slice`. -/
def SignedPreKey.get_public_key (P : X3dhPrims) (spk : SignedPreKey) :
    Except CryptoError Nat :=
  if spk.public_key.length = 32 then
    match P.parseCurvePub spk.public_key with
    | some k => .ok k
    | none => .error (CryptoError.InvalidKey "invalid key")
  else .error (CryptoError.InvalidKey "Key must be 32 bytes")

/-- One-time prekey record (crypto/keys.rs `OneTimePreKey`). -/
structure OneTimePreKey where
  key_id : Nat
  public_key : Bytes
  deriving DecidableEq, Repr

/-- Model of `OneTimePreKey::new`. -/
def OneTimePreKey.new (P : X3dhPrims) (key_id : Nat)
    (key_pair : Curve25519KeyPair) : OneTimePreKey :=
  { key_id := key_id, public_key := P.encodeCurvePub key_pair.public }

/-- Model of `OneTimePreKey::get_public_key`. -/
def OneTimePreKey.get_public_key (P : X3dhPrims) (otk : OneTimePreKey) :
    Except CryptoError Nat :=
  if otk.public_key.length = 32 then
    match P.parseCurvePub otk.public_key with
    | some k => .ok k
    | none => .error (CryptoError.InvalidKey "invalid key")
  else .error (CryptoError.InvalidKey "Key must be 32 bytes")

/-- Prekey bundle fetched from the server (crypto/x3dh.rs `PreKeyBundle`). -/
structure PreKeyBundle where
  identity_key : Bytes
  signed_prekey : SignedPreKey
  one_time_prekey : Option OneTimePreKey
  deriving DecidableEq, Repr

/-- Model of `PreKeyBundle::get_identity_key`: 32-byte length check then
`Ed25519PublicKey::from_slice`. -/
def PreKeyBundle.get_identity_key (P : X3dhPrims) (b : PreKeyBundle) :
    Except CryptoError Nat :=
  if b.identity_key.length = 32 then
    match P.parseEdPub b.identity_key with
    | some k => .ok k
    | none => .error (CryptoError.InvalidKey "Invalid identity key in bundle")
  else .error (CryptoError.InvalidKey "Identity key must be 32 bytes")

/-- Model of `PreKeyBundle::verify`. -/
def PreKeyBundle.verify (P : X3dhPrims) (b : PreKeyBundle) :
    Except CryptoError Unit :=
  match b.get_identity_key P with
  | .error e => .error e
  | .ok identity_key => b.signed_prekey.verify P identity_key

/-- Model of `convert_ed25519_to_curve25519_secret`: SHA-512 of the seed,
clamping, and X25519 base-point multiplication, abstracted as `convSec` and
`curvePub`.  The length check of the source is vacuous for the abstract
32-byte secret keys produced by `Ed25519SecretKey::to_bytes`. -/
def convert_ed25519_to_curve25519_secret (P : X3dhPrims) (ed_secret : Nat) :
    Curve25519KeyPair :=
  { public := P.curvePub (P.convSec ed_secret), secret := P.convSec ed_secret }

/-- Model of `convert_ed25519_to_curve25519_public`: Edwards decompression
plus Montgomery projection, which can fail on invalid points. -/
def convert_ed25519_to_curve25519_public (P : X3dhPrims) (ed_public : Nat) :
    Except CryptoError Nat :=
  match P.convPub ed_public with
  | some k => .ok k
  | none => .error (CryptoError.InvalidKey "Failed to decompress Ed25519 public key")

/-- Info string `b"NoChat X3DH v1"` as bytes. -/
def x3dhInfo : Bytes := [78, 111, 67, 104, 97, 116, 32, 88, 51, 68, 72, 32, 118, 49]

/-- Model of `kdf_x3dh` in crypto/x3dh.rs, mirroring the sequential
`extend_from_slice` construction of the ikm buffer.  The HKDF expand of 32
bytes cannot fail, so the `map_err` branch of the source is unreachable. -/
def kdf_x3dh (P : X3dhPrims) (dh1 dh2 dh3 : Bytes) (dh4 : Option Bytes) :
    Except CryptoError Bytes :=
  let input0 : Bytes := List.replicate 32 0xFF
  let input1 := input0 ++ dh1
  let input2 := input1 ++ dh2
  let input3 := input2 ++ dh3
  let input :=
    match dh4 with
    | some dh4_bytes => input3 ++ dh4_bytes
    | none => input3
  .ok (P.hkdfSha256 none input x3dhInfo 32)

/-- Result of X3DH on the initiator side (crypto/x3dh.rs `X3dhResult`). -/
structure X3dhResult where
  shared_secret : Bytes
  ephemeral_public : Bytes
  used_one_time_prekey : Option Nat
  deriving DecidableEq, Repr

/-- Model of `x3dh_initiate`.  The ephemeral key pair generated inside the
source function is passed explicitly as `ephemeral`. -/
def x3dh_initiate (P : X3dhPrims) (our_identity : IdentityKeyPair)
    (their_bundle : PreKeyBundle) (ephemeral : Curve25519KeyPair) :
    Except CryptoError X3dhResult :=
  match their_bundle.verify P with
  | .error e => .error e
  | .ok _ =>
    match their_bundle.get_identity_key P with
    | .error e => .error e
    | .ok their_identity =>
      match their_bundle.signed_prekey.get_public_key P with
      | .error e => .error e
      | .ok their_signed_prekey =>
        let our_identity_curve := convert_ed25519_to_curve25519_secret P our_identity.secret
        let dh1 := our_identity_curve.diffie_hellman P their_signed_prekey
        match convert_ed25519_to_curve25519_public P their_identity with
        | .error e => .error e
        | .ok their_identity_curve =>
          let dh2 := ephemeral.diffie_hellman P their_identity_curve
          let dh3 := ephemeral.diffie_hellman P their_signed_prekey
          match their_bundle.one_time_prekey with
          | some otk =>
            match otk.get_public_key P with
            | .error e => .error e
            | .ok their_otk =>
              match kdf_x3dh P dh1 dh2 dh3 (some (ephemeral.diffie_hellman P their_otk)) with
              | .error e => .error e
              | .ok shared_secret =>
                .ok { shared_secret := shared_secret
                      ephemeral_public := P.encodeCurvePub ephemeral.public
                      used_one_time_prekey := some otk.key_id }
          | none =>
            match kdf_x3dh P dh1 dh2 dh3 none with
            | .error e => .error e
            | .ok shared_secret =>
              .ok { shared_secret := shared_secret
                    ephemeral_public := P.encodeCurvePub ephemeral.public
                    used_one_time_prekey := none }

/-- Model of `x3dh_respond`. -/
def x3dh_respond (P : X3dhPrims) (our_identity : IdentityKeyPair)
    (our_signed_prekey : Curve25519KeyPair)
    (our_one_time_prekey : Option Curve25519KeyPair)
    (their_identity : Nat) (their_ephemeral : Nat) :
    Except CryptoError Bytes :=
  match convert_ed25519_to_curve25519_public P their_identity with
  | .error e => .error e
  | .ok their_identity_curve =>
    let dh1 := our_signed_prekey.diffie_hellman P their_identity_curve
    let our_identity_curve := convert_ed25519_to_curve25519_secret P our_identity.secret
    let dh2 := our_identity_curve.diffie_hellman P their_ephemeral
    let dh3 := our_signed_prekey.diffie_hellman P their_ephemeral
    let dh4 := our_one_time_prekey.map (fun otk => otk.diffie_hellman P their_ephemeral)
    kdf_x3dh P dh1 dh2 dh3 dh4

/-- Shared secret exactly as the spec describes it: salt is 32 bytes of 0xFF,
ikm is salt followed by DH1, DH2, DH3 and optionally DH4, and the result is
HKDF-SHA256 with no salt argument, info "NoChat X3DH v1" and output length
32 bytes.  Written from the spec wording for comparison with `kdf_x3dh`. -/
def kdf_x3dh_spec (P : X3dhPrims) (dh1 dh2 dh3 : Bytes) (dh4 : Option Bytes) : Bytes :=
  let salt : Bytes := List.replicate 32 0xFF
  let ikm : Bytes := salt ++ (dh1 ++ (dh2 ++ (dh3 ++ (match dh4 with
    | some d => d
    | none => []))))
  P.hkdfSha256 none ikm x3dhInfo 32

/-- Prekey management configuration (crypto/prekeys.rs `PreKeyConfig`). -/
structure PreKeyConfig where
  initial_batch_size : Nat
  replenishment_batch_size : Nat
  min_prekey_count : Nat
  signed_prekey_max_age_days : Int
  deriving DecidableEq, Repr

/-- Prekey manager state (crypto/prekeys.rs `PreKeyManager`). -/
structure PreKeyManager where
  identity : IdentityKeyPair
  signed_prekey : Curve25519KeyPair
  signed_prekey_id : Nat
  signed_prekey_created : Int
  one_time_prekeys : List (Nat × Curve25519KeyPair)
  next_prekey_id : Nat
  config : PreKeyConfig
  deriving DecidableEq, Repr

/-- Model of `PreKeyManager::generate_prekey_batch`.  The `i`-th generated
key pair of the loop body is supplied by the stream `gen`; the `as u32`
cast of the id is modelled as `% 2^32`. -/
def PreKeyManager.generate_prekey_batch (start_id : Nat) (count : Nat)
    (gen : Nat → Curve25519KeyPair) : List (Nat × Curve25519KeyPair) :=
  (List.range count).map fun i => ((start_id + i) % 4294967296, gen i)

/-- Model of `PreKeyManager::get_signed_prekey`; `now` stands for the
timestamp taken inside `SignedPreKey::new`. -/
def PreKeyManager.get_signed_prekey (P : X3dhPrims) (m : PreKeyManager)
    (now : Int) : SignedPreKey :=
  SignedPreKey.new P m.signed_prekey_id m.signed_prekey m.identity now

/-- First-match removal used by `consume_prekey`: equivalent to
`position(|(id, _)| *id == key_id)` followed by `remove(idx)`. -/
def removeFirstById : List (Nat × Curve25519KeyPair) → Nat →
    Option (Curve25519KeyPair × List (Nat × Curve25519KeyPair))
  | [], _ => none
  | (id, kp) :: rest, key_id =>
    if id = key_id then some (kp, rest)
    else
      match removeFirstById rest key_id with
      | none => none
      | some (found, rest2) => some (found, (id, kp) :: rest2)

/-- Model of `PreKeyManager::consume_prekey`: when no prekey carries the id
the state is untouched and `none` is returned, otherwise the first matching
entry is removed and its key pair returned. -/
def PreKeyManager.consume_prekey (m : PreKeyManager) (key_id : Nat) :
    Option Curve25519KeyPair × PreKeyManager :=
  match removeFirstById m.one_time_prekeys key_id with
  | none => (none, m)
  | some (kp, rest) => (some kp, { m with one_time_prekeys := rest })

/-- Model of `PreKeyManager::replenish`: generates a batch starting at
`next_prekey_id`, bumps `next_prekey_id` by the batch size (u32 wrap
modelled as `% 2^32`), extends the pool and returns the public records. -/
def PreKeyManager.replenish (P : X3dhPrims) (m : PreKeyManager)
    (gen : Nat → Curve25519KeyPair) : List OneTimePreKey × PreKeyManager :=
  let new_keys := PreKeyManager.generate_prekey_batch m.next_prekey_id
    m.config.replenishment_batch_size gen
  let result := new_keys.map fun p => OneTimePreKey.new P p.1 p.2
  (result,
   { m with
     next_prekey_id := (m.next_prekey_id + m.config.replenishment_batch_size) % 4294967296
     one_time_prekeys := m.one_time_prekeys ++ new_keys })

/-- Model of `PreKeyManager::rotate_signed_prekey`: the freshly generated
pair `fresh` replaces the current signed prekey, the id is incremented
(u32 wrap modelled as `% 2^32`) and the creation time reset; the new
signed prekey record is returned. -/
def PreKeyManager.rotate_signed_prekey (P : X3dhPrims) (m : PreKeyManager)
    (fresh : Curve25519KeyPair) (now : Int) : SignedPreKey × PreKeyManager :=
  let m2 :=
    { m with
      signed_prekey := fresh
      signed_prekey_id := (m.signed_prekey_id + 1) % 4294967296
      signed_prekey_created := now }
  (m2.get_signed_prekey P now, m2)

/-- Model of `PreKeyManager::get_signed_prekey_pair`, the only access the
source offers to a signed prekey pair for responding to a handshake. -/
def PreKeyManager.get_signed_prekey_pair (m : PreKeyManager) : Curve25519KeyPair :=
  m.signed_prekey

/-- Pickle keys are 32-byte strings (crypto/ratchet.rs `PickleKey`). -/
abbrev PickleKey := Bytes

/-- A vodozemac Olm message: the PreKey and Normal variants carry an
abstract vodozemac message state. -/
inductive OlmMessage where
  | PreKey (m : Nat)
  | Normal (m : Nat)
  deriving DecidableEq, Repr

/-- Serializable session state (crypto/ratchet.rs `PickledSession`); the
`session` field is the abstract vodozemac `SessionPickle`. -/
structure PickledSession where
  session : Nat
  peer_id : String
  messages_sent : Nat
  messages_received : Nat
  deriving DecidableEq, Repr

/-- Primitives of the vodozemac Olm layer and of serde_json, used by
crypto/ratchet.rs, crypto/sessions.rs and crypto/service.rs.  Account and
session states are abstract naturals.  `innerDecrypt` models
`vodozemac::olm::Session::decrypt`, which leaves the session state
untouched when decryption fails, so a failure produces no successor
state. -/
structure OlmPrims where
  accountIdentityKey : Nat → Nat
  accountEdKey : Nat → Nat
  accountPickle : Nat → String
  parseAccountPickle : String → Option Nat
  fromLibolmPickle : String → Option Nat
  accountFromPickle : Nat → Nat
  createOutbound : Nat → Nat → Nat → Nat
  createInbound : Nat → Nat → Nat → Option (Nat × Nat × Bytes)
  innerDecrypt : Nat → OlmMessage → Option (Bytes × Nat)
  sessionId : Nat → String
  sessionPickleOf : Nat → Nat
  sessionFromPickle : Nat → Nat
  serializePickledSession : PickledSession → String
  deserializePickledSession : String → Option PickledSession
  encodeCurve : Nat → Bytes
  edEncode : Nat → Bytes
  parseCurve : Bytes → Option Nat
  preKeyFromBytes : Bytes → Option Nat
  normalFromBytes : Bytes → Option Nat

/-- Wrapper around a vodozemac `Account` (crypto/ratchet.rs `OlmAccount`). -/
structure OlmAccount where
  inner : Nat
  deriving DecidableEq, Repr

/-- Model of `OlmAccount::pickle`.  The source ignores the pickle key (its
binder is `_pickle_key`) and returns the serde_json string of the plain
vodozemac `AccountPickle`; serializing that struct cannot fail. -/
def OlmAccount.pickle (P : OlmPrims) (a : OlmAccount) (_pickle_key : PickleKey) :
    Except CryptoError String :=
  .ok (P.accountPickle a.inner)

/-- Model of `OlmAccount::from_pickle`: parse the serde_json pickle (the
pickle key is ignored), try the libolm format first, then the native one. -/
def OlmAccount.from_pickle (P : OlmPrims) (pickled : String)
    (_pickle_key : PickleKey) : Except CryptoError OlmAccount :=
  match P.parseAccountPickle pickled with
  | none => .error (CryptoError.SerializationError "invalid account pickle")
  | some pickle =>
    match P.fromLibolmPickle pickled with
    | some inner => .ok { inner := inner }
    | none => .ok { inner := P.accountFromPickle pickle }

/-- Model of `OlmAccount::identity_key` (the Curve25519 account key). -/
def OlmAccount.identity_key (P : OlmPrims) (a : OlmAccount) : Nat :=
  P.accountIdentityKey a.inner

/-- Double Ratchet session wrapper (crypto/ratchet.rs `RatchetSession`). -/
structure RatchetSession where
  inner : Nat
  peer_id : String
  messages_sent : Nat
  messages_received : Nat
  deriving DecidableEq, Repr

/-- Model of `RatchetSession::new`. -/
def RatchetSession.new (inner : Nat) (peer_id : String) : RatchetSession :=
  { inner := inner, peer_id := peer_id, messages_sent := 0, messages_received := 0 }

/-- Model of `OlmAccount::create_outbound_session`: the session is created
from the peer Curve25519 identity key and one-time key, and the peer id is
the hex encoding of the identity key bytes. -/
def OlmAccount.create_outbound_session (P : OlmPrims) (a : OlmAccount)
    (their_identity_key : Nat) (their_one_time_key : Nat) :
    Except CryptoError RatchetSession :=
  .ok (RatchetSession.new (P.createOutbound a.inner their_identity_key their_one_time_key)
        (hexEncode (P.encodeCurve their_identity_key)))

/-- Model of `OlmAccount::create_inbound_session`.  The first component of
the result is the mutated account (the used one-time key is consumed by
vodozemac). -/
def OlmAccount.create_inbound_session (P : OlmPrims) (a : OlmAccount)
    (their_identity_key : Nat) (message : OlmMessage) :
    Except CryptoError (OlmAccount × RatchetSession × Bytes) :=
  match message with
  | .Normal _ => .error (CryptoError.X3dhError "Expected PreKey message for new session")
  | .PreKey m =>
    match P.createInbound a.inner their_identity_key m with
    | none => .error (CryptoError.X3dhError "Failed to create inbound session")
    | some (inner2, session_inner, plaintext) =>
      .ok ({ inner := inner2 },
           RatchetSession.new session_inner (hexEncode (P.encodeCurve their_identity_key)),
           plaintext)

/-- Model of `RatchetSession::decrypt`, state-passing: the error of the
inner vodozemac decrypt propagates through the `?` operator before
`messages_received` is incremented, so on failure the session is returned
unchanged. -/
def RatchetSession.decrypt (P : OlmPrims) (s : RatchetSession) (message : OlmMessage) :
    Except CryptoError Bytes × RatchetSession :=
  match P.innerDecrypt s.inner message with
  | none => (.error (CryptoError.DecryptionError "vodozemac decryption failed"), s)
  | some (plaintext, inner2) =>
    (.ok plaintext,
     { s with inner := inner2, messages_received := s.messages_received + 1 })

/-- Model of `RatchetSession::pickle`: the pickle key is ignored (binder
`_pickle_key`); the plain `PickledSession` is serialized with serde_json. -/
def RatchetSession.pickle (P : OlmPrims) (s : RatchetSession)
    (_pickle_key : PickleKey) : Except CryptoError String :=
  .ok (P.serializePickledSession
    { session := P.sessionPickleOf s.inner
      peer_id := s.peer_id
      messages_sent := s.messages_sent
      messages_received := s.messages_received })

/-- Model of `RatchetSession::unpickle`: the pickle key is ignored. -/
def RatchetSession.unpickle (P : OlmPrims) (pickled : String)
    (_pickle_key : PickleKey) : Except CryptoError RatchetSession :=
  match P.deserializePickledSession pickled with
  | none => .error (CryptoError.SerializationError "invalid session pickle")
  | some st =>
    .ok { inner := P.sessionFromPickle st.session
          peer_id := st.peer_id
          messages_sent := st.messages_sent
          messages_received := st.messages_received }

/-- Wire message wrapper (crypto/ratchet.rs `EncryptedMessage`). -/
structure EncryptedMessage where
  message_type : Nat
  ciphertext : Bytes
  deriving DecidableEq, Repr

/-- Model of `EncryptedMessage::from_bytes`. -/
def EncryptedMessage.from_bytes (bytes : Bytes) : Except CryptoError EncryptedMessage :=
  match bytes with
  | [] => .error (CryptoError.DecryptionError "Empty message bytes")
  | b :: rest => .ok { message_type := b, ciphertext := rest }

/-- Model of `EncryptedMessage::to_olm`. -/
def EncryptedMessage.to_olm (P : OlmPrims) (e : EncryptedMessage) :
    Except CryptoError OlmMessage :=
  if e.message_type = 0 then
    match P.preKeyFromBytes e.ciphertext with
    | some m => .ok (OlmMessage.PreKey m)
    | none => .error (CryptoError.DecryptionError "Invalid PreKey message")
  else if e.message_type = 1 then
    match P.normalFromBytes e.ciphertext with
    | some m => .ok (OlmMessage.Normal m)
    | none => .error (CryptoError.DecryptionError "Invalid message")
  else .error (CryptoError.DecryptionError "Unknown message type")

/-- State of the SQLite vault (crypto/sessions.rs logical tables).  Rows of
`peer_sessions` map a peer id to the stored `(id, session_data)` pair. -/
structure StoreState where
  crypto_account : Option (String × String)
  peer_sessions : String → Option (String × String)

/-- Model of `SessionStore::save_account`: upsert of the single account row;
on conflict only `account_data` is replaced, the stored identity key column
is kept. -/
def SessionStore.save_account (P : OlmPrims) (st : StoreState)
    (pickle_key : PickleKey) (account : OlmAccount) : StoreState :=
  match OlmAccount.pickle P account pickle_key with
  | .error _ => st
  | .ok pickled =>
    let identity_key := hexEncode (P.encodeCurve (OlmAccount.identity_key P account))
    match st.crypto_account with
    | some (stored_key, _) => { st with crypto_account := some (stored_key, pickled) }
    | none => { st with crypto_account := some (identity_key, pickled) }

/-- Model of `SessionStore::save_session`: upsert keyed on the session
`peer_id`; on conflict only `session_data` is replaced. -/
def SessionStore.save_session (P : OlmPrims) (st : StoreState)
    (pickle_key : PickleKey) (session : RatchetSession) : StoreState :=
  match RatchetSession.pickle P session pickle_key with
  | .error _ => st
  | .ok pickled =>
    let session_id := P.sessionId session.inner
    { st with
      peer_sessions := fun p =>
        if p = session.peer_id then
          match st.peer_sessions session.peer_id with
          | some (stored_id, _) => some (stored_id, pickled)
          | none => some (session_id, pickled)
        else st.peer_sessions p }

/-- State owned by the crypto service (crypto/service.rs `CryptoService`):
the account, the hot session cache, the vault state and the pickle key. -/
structure CryptoServiceState where
  account : OlmAccount
  sessions : String → Option RatchetSession
  store : StoreState
  pickle_key : PickleKey

/-- Model of `CryptoService::establish_inbound_session`, state-passing. -/
def CryptoService.establish_inbound_session (P : OlmPrims)
    (st : CryptoServiceState) (peer_id : String) (their_identity_key : Bytes)
    (ciphertext : Bytes) : Except CryptoError Bytes × CryptoServiceState :=
  match P.parseCurve their_identity_key with
  | none => (.error (CryptoError.InvalidKey "invalid key"), st)
  | some identity =>
    match EncryptedMessage.from_bytes ciphertext with
    | .error e => (.error e, st)
    | .ok encrypted =>
      match encrypted.to_olm P with
      | .error e => (.error e, st)
      | .ok olm_message =>
        match OlmAccount.create_inbound_session P st.account identity olm_message with
        | .error e => (.error e, st)
        | .ok (account2, session, plaintext) =>
          let store2 := SessionStore.save_account P st.store st.pickle_key account2
          let store3 := SessionStore.save_session P store2 st.pickle_key session
          (.ok plaintext,
           { st with
             account := account2
             store := store3
             sessions := fun p => if p = peer_id then some session else st.sessions p })

/-- Model of `CryptoService::decrypt`, state-passing: with an existing
session the envelope is parsed, the session decrypts and is written back
and persisted; without a session an inbound session is established when an
identity key accompanies the message. -/
def CryptoService.decrypt (P : OlmPrims) (st : CryptoServiceState)
    (peer_id : String) (their_identity_key : Option Bytes) (ciphertext : Bytes) :
    Except CryptoError Bytes × CryptoServiceState :=
  match st.sessions peer_id with
  | some session =>
    match EncryptedMessage.from_bytes ciphertext with
    | .error e => (.error e, st)
    | .ok encrypted =>
      match encrypted.to_olm P with
      | .error e => (.error e, st)
      | .ok olm_message =>
        match RatchetSession.decrypt P session olm_message with
        | (.error e, session2) =>
          (.error e,
           { st with sessions := fun p => if p = peer_id then some session2 else st.sessions p })
        | (.ok plaintext, session2) =>
          (.ok plaintext,
           { st with
             sessions := fun p => if p = peer_id then some session2 else st.sessions p
             store := SessionStore.save_session P st.store st.pickle_key session2 })
  | none =>
    match their_identity_key with
    | none => (.error (CryptoError.SessionNotFound peer_id), st)
    | some identity_key =>
      CryptoService.establish_inbound_session P st peer_id identity_key ciphertext

/-- Encryption mode marker (crypto/service.rs `EncryptionMode`). -/
inductive EncryptionMode where
  | Legacy
  | Signal
  deriving DecidableEq, Repr

/-- Hybrid wire envelope (crypto/service.rs `HybridEncryptedMessage`). -/
structure HybridEncryptedMessage where
  mode : EncryptionMode
  ciphertext : Bytes
  sender_identity : Option Bytes
  deriving DecidableEq, Repr

/-- Model of `HybridEncryptedMessage::to_bytes`; `identity.len() as u8` is
modelled as `% 256`. -/
def HybridEncryptedMessage.to_bytes (m : HybridEncryptedMessage) : Bytes :=
  (match m.mode with
   | EncryptionMode.Legacy => [0]
   | EncryptionMode.Signal => [1]) ++
  (match m.sender_identity with
   | some identity => (identity.length % 256) :: identity
   | none => [0]) ++
  m.ciphertext

/-- Model of `HybridEncryptedMessage::from_bytes`. -/
def HybridEncryptedMessage.from_bytes (bytes : Bytes) :
    Except CryptoError HybridEncryptedMessage :=
  match bytes with
  | b0 :: identity_len :: rest =>
    match (if b0 = 0 then some EncryptionMode.Legacy
           else if b0 = 1 then some EncryptionMode.Signal else none) with
    | none => .error (CryptoError.DecryptionError "Unknown version")
    | some mode =>
      if rest.length < identity_len then
        .error (CryptoError.DecryptionError "Message truncated")
      else
        .ok { mode := mode
              ciphertext := rest.drop identity_len
              sender_identity :=
                if identity_len > 0 then some (rest.take identity_len) else none }
  | _ => .error (CryptoError.DecryptionError "Message too short")

/-- Canonical toy signature of message `m` under public key `pk`: the key,
the message, a terminator byte 1 and zero padding to 64 bytes for 32-byte
messages.  Injective in `pk` and `m`, which mirrors the strong
unforgeability of deterministic Ed25519 used by claim C4. -/
def toySig (pk : Nat) (m : Bytes) : Bytes :=
  pk :: (m ++ (1 :: List.replicate (62 - m.length) 0))

/-- Toy 32-byte encoding of an abstract key. -/
def toyEnc32 (k : Nat) : Bytes :=
  k :: List.replicate 31 0

/-- Toy parse of the 32-byte encoding. -/
def toyParse32 (bs : Bytes) : Option Nat :=
  match bs with
  | x :: rest => if rest.length = 31 then some x else none
  | [] => none

/-- Concrete instance of the X3DH primitives over the group of powers of 3
modulo 101, used by witnesses to evaluate the embedded code on closed
inputs.  The proof fields hold: DH is commutative exponentiation and the
Ed and Curve views coincide, so the conversion is the identity. -/
def toyX3dh : X3dhPrims where
  dh := fun s q => [q ^ s % 101]
  curvePub := fun t => 3 ^ t % 101
  edPub := fun t => 3 ^ t % 101
  convSec := fun s => s
  convPub := fun k => some k
  sign := fun s m => toySig (3 ^ s % 101) m
  edVerify := fun pk m sig => decide (sig = toySig pk m)
  hkdfSha256 := fun _ ikm _ _ => ikm
  encodeCurvePub := toyEnc32
  parseCurvePub := toyParse32
  encodeEdPub := toyEnc32
  parseEdPub := toyParse32
  dh_comm := by
    intro s t
    have h : (3 ^ t % 101) ^ s % 101 = (3 ^ s % 101) ^ t % 101 := by
      rw [← Nat.pow_mod, ← Nat.pow_mod, ← pow_mul, ← pow_mul, mul_comm]
    simp [h]
  conv_compat := fun _ => rfl
  verify_sign := by intro s m; simp
  sign_len := by
    intro s m h
    simp [toySig, h]
  parse_encode_ed := by intro k; simp [toyEnc32, toyParse32]
  parse_encode_curve := by intro k; simp [toyEnc32, toyParse32]
  encode_ed_len := by intro k; simp [toyEnc32]
  encode_curve_len := by intro k; simp [toyEnc32]

/-- Concrete instance of the Olm layer primitives whose inner decrypt
always fails, used to witness the decrypt-failure theorem on a closed
state. -/
def toyOlmFail : OlmPrims where
  accountIdentityKey := fun a => a
  accountEdKey := fun a => a + 1
  accountPickle := fun _ => "account"
  parseAccountPickle := fun _ => some 0
  fromLibolmPickle := fun _ => none
  accountFromPickle := fun p => p
  createOutbound := fun _ _ _ => 0
  createInbound := fun _ _ _ => none
  innerDecrypt := fun _ _ => none
  sessionId := fun _ => "sid"
  sessionPickleOf := fun s => s
  sessionFromPickle := fun p => p
  serializePickledSession := fun _ => "session"
  deserializePickledSession := fun _ => none
  encodeCurve := fun k => [k]
  edEncode := fun k => [k]
  parseCurve := fun _ => some 0
  preKeyFromBytes := fun _ => some 0
  normalFromBytes := fun _ => some 0

/-- Concrete instance of the Olm layer primitives for the peer-id claim: a
vodozemac account `a` has Curve25519 identity key `a` and Ed25519 signing
key `a + 1`, whose byte encodings differ, as the Montgomery and Edwards
encodings of one identity do in vodozemac. -/
def toyOlmPeer : OlmPrims where
  accountIdentityKey := fun a => a
  accountEdKey := fun a => a + 1
  accountPickle := fun _ => "account"
  parseAccountPickle := fun _ => some 0
  fromLibolmPickle := fun _ => none
  accountFromPickle := fun p => p
  createOutbound := fun _ _ _ => 0
  createInbound := fun _ _ _ => some (1, 2, [42])
  innerDecrypt := fun _ _ => some ([9], 3)
  sessionId := fun _ => "sid"
  sessionPickleOf := fun s => s
  sessionFromPickle := fun p => p
  serializePickledSession := fun _ => "session"
  deserializePickledSession := fun _ => none
  encodeCurve := fun k => [k]
  edEncode := fun k => [k]
  parseCurve := fun _ => some 0
  preKeyFromBytes := fun _ => some 0
  normalFromBytes := fun _ => some 0

/-- Closed service state with one cached session, used by the C3 witness. -/
def sampleSession : RatchetSession :=
  { inner := 0, peer_id := "peer", messages_sent := 4, messages_received := 7 }

/-- Closed store state of the C3 witness. -/
def sampleStore : StoreState :=
  { crypto_account := none, peer_sessions := fun _ => none }

/-- Closed crypto service state of the C3 witness. -/
def sampleServiceState : CryptoServiceState :=
  { account := { inner := 0 }
    sessions := fun p => if p = "peer" then some sampleSession else none
    store := sampleStore
    pickle_key := List.replicate 32 0 }

/-- Sample prekey pool manager used by closed witnesses. -/
def sampleManager : PreKeyManager :=
  { identity := { public := 41, secret := 5 }
    signed_prekey := { public := 66, secret := 7 }
    signed_prekey_id := 0
    signed_prekey_created := 0
    one_time_prekeys := [(0, { public := 12, secret := 2 }), (1, { public := 27, secret := 3 })]
    next_prekey_id := 2
    config :=
      { initial_batch_size := 2
        replenishment_batch_size := 2
        min_prekey_count := 1
        signed_prekey_max_age_days := 7 } }

/-- Sample identity key pair of the initiator, well formed over the toy
primitives. -/
def sampleIkA : IdentityKeyPair := { public := toyX3dh.edPub 5, secret := 5 }

/-- Sample identity key pair of the responder. -/
def sampleIkB : IdentityKeyPair := { public := toyX3dh.edPub 11, secret := 11 }

/-- Sample signed prekey pair of the responder. -/
def sampleSpkB : Curve25519KeyPair := { public := toyX3dh.curvePub 7, secret := 7 }

/-- Sample ephemeral key pair of the initiator. -/
def sampleEk : Curve25519KeyPair := { public := toyX3dh.curvePub 13, secret := 13 }

/-- Sample one-time prekey pair of the responder. -/
def sampleOpkB : Curve25519KeyPair := { public := toyX3dh.curvePub 17, secret := 17 }

/-- Sample valid prekey bundle of the responder over the toy primitives. -/
def sampleBundle : PreKeyBundle :=
  { identity_key := toyX3dh.encodeEdPub sampleIkB.public
    signed_prekey := SignedPreKey.new toyX3dh 1 sampleSpkB sampleIkB 0
    one_time_prekey := none }

/-- Claim C5: the X3DH key derivation of the source equals the KDF the spec
describes, for every choice of DH outputs and for any HKDF-SHA256
implementation: salt argument none, ikm equal to 32 bytes of 0xFF followed
by DH1, DH2, DH3 and, when present, DH4, info string "NoChat X3DH v1" and
output length 32 bytes. -/
theorem kdf_x3dh_matches_spec (P : X3dhPrims) (dh1 dh2 dh3 : Bytes)
    (dh4 : Option Bytes) :
    kdf_x3dh P dh1 dh2 dh3 dh4 = .ok (kdf_x3dh_spec P dh1 dh2 dh3 dh4) := by
  cases dh4 <;> simp [kdf_x3dh, kdf_x3dh_spec]

/-- Claim C2 is refuted by the code: account and session pickling ignore
the pickle key entirely (the source binds it as an unused underscore
argument), so the stored blob is identical under any two keys and
unpickling succeeds or fails independently of the key.  This contradicts
the stated confidentiality property. -/
theorem pickle_ignores_pickle_key (P : OlmPrims) (a : OlmAccount)
    (s : RatchetSession) (blob : String) (k1 k2 : PickleKey) :
    OlmAccount.pickle P a k1 = OlmAccount.pickle P a k2 ∧
    RatchetSession.pickle P s k1 = RatchetSession.pickle P s k2 ∧
    OlmAccount.from_pickle P blob k1 = OlmAccount.from_pickle P blob k2 ∧
    RatchetSession.unpickle P blob k1 = RatchetSession.unpickle P blob k2 :=
  ⟨rfl, rfl, rfl, rfl⟩

/-- Removal by a missing id returns `none`. -/
theorem removeFirstById_of_not_mem (l : List (Nat × Curve25519KeyPair))
    (key_id : Nat) (h : key_id ∉ l.map Prod.fst) :
    removeFirstById l key_id = none := by
  induction l with
  | nil => rfl
  | cons hd tl ih =>
    obtain ⟨id, kp⟩ := hd
    simp only [List.map_cons, List.mem_cons, not_or] at h
    have hne : id ≠ key_id := fun he => h.1 he.symm
    simp [removeFirstById, hne, ih h.2]

/-- Removal by a present id returns a pair of that id and shrinks the list
by one. -/
theorem removeFirstById_of_mem (l : List (Nat × Curve25519KeyPair))
    (key_id : Nat) (h : key_id ∈ l.map Prod.fst) :
    ∃ kp rest, removeFirstById l key_id = some (kp, rest) ∧
      (key_id, kp) ∈ l ∧ rest.length + 1 = l.length := by
  induction l with
  | nil => simp at h
  | cons hd tl ih =>
    obtain ⟨id, kp⟩ := hd
    by_cases he : id = key_id
    · subst he
      exact ⟨kp, tl, by simp [removeFirstById], by simp, by simp⟩
    · simp only [List.map_cons, List.mem_cons] at h
      have hk : key_id ∈ tl.map Prod.fst := by
        rcases h with h | h
        · exact absurd h.symm he
        · exact h
      obtain ⟨kp2, rest, hr, hm, hl⟩ := ih hk
      refine ⟨kp2, (id, kp) :: rest, ?_, List.mem_cons_of_mem _ hm, ?_⟩
      · simp [removeFirstById, he, hr]
      · simp only [List.length_cons]
        omega

/-- With pairwise distinct ids, the id removed no longer occurs in the
remaining list. -/
theorem removeFirstById_not_mem_rest (l : List (Nat × Curve25519KeyPair))
    (key_id : Nat) (kp : Curve25519KeyPair)
    (rest : List (Nat × Curve25519KeyPair))
    (hnd : (l.map Prod.fst).Nodup)
    (hr : removeFirstById l key_id = some (kp, rest)) :
    key_id ∉ rest.map Prod.fst := by
  induction l generalizing rest with
  | nil => simp [removeFirstById] at hr
  | cons hd tl ih =>
    obtain ⟨id, kp2⟩ := hd
    simp only [List.map_cons, List.nodup_cons] at hnd
    by_cases he : id = key_id
    · subst he
      simp only [removeFirstById, if_true, eq_self_iff_true,
        Option.some.injEq, Prod.mk.injEq] at hr
      rw [← hr.2]
      exact hnd.1
    · simp only [removeFirstById, if_neg he] at hr
      cases hrec : removeFirstById tl key_id with
      | none => rw [hrec] at hr; simp at hr
      | some pr =>
        obtain ⟨kpf, rest2⟩ := pr
        rw [hrec] at hr
        simp only [Option.some.injEq, Prod.mk.injEq] at hr
        rw [hr.1] at hrec
        rw [← hr.2]
        simp only [List.map_cons, List.mem_cons, not_or]
        exact ⟨fun hk => he hk.symm, ih rest2 hnd.2 hrec⟩

/-- Claim C8: consuming a one-time prekey removes and returns the entry
with the requested id when the pool holds one (the pool shrinks by exactly
one and, with the pairwise distinct ids the manager maintains, a second
call with the same id returns none and leaves the state untouched); when
no entry has the id, none is returned and the state is untouched. -/
theorem consume_prekey_correct (m : PreKeyManager) (key_id : Nat)
    (hnd : (m.one_time_prekeys.map Prod.fst).Nodup) :
    (key_id ∈ m.one_time_prekeys.map Prod.fst →
      ∃ kp, (key_id, kp) ∈ m.one_time_prekeys ∧
        (m.consume_prekey key_id).1 = some kp ∧
        (m.consume_prekey key_id).2.one_time_prekeys.length + 1
          = m.one_time_prekeys.length ∧
        (m.consume_prekey key_id).2.consume_prekey key_id
          = (none, (m.consume_prekey key_id).2)) ∧
    (key_id ∉ m.one_time_prekeys.map Prod.fst →
      m.consume_prekey key_id = (none, m)) := by
  constructor
  · intro hmem
    obtain ⟨kp, rest, hr, hin, hlen⟩ := removeFirstById_of_mem _ _ hmem
    have hnotin : key_id ∉ rest.map Prod.fst :=
      removeFirstById_not_mem_rest _ _ _ _ hnd hr
    refine ⟨kp, hin, ?_, ?_, ?_⟩
    · simp [PreKeyManager.consume_prekey, hr]
    · simp [PreKeyManager.consume_prekey, hr]
      omega
    · simp [PreKeyManager.consume_prekey, hr,
        removeFirstById_of_not_mem _ _ hnotin]
  · intro hmem
    simp [PreKeyManager.consume_prekey, removeFirstById_of_not_mem _ _ hmem]

/-- Witness for claim C8 on a closed manager with two pooled prekeys. -/
theorem consume_prekey_correct_witness :
    ((sampleManager.one_time_prekeys.map Prod.fst).Nodup) ∧
    ((0 ∈ sampleManager.one_time_prekeys.map Prod.fst →
      ∃ kp, (0, kp) ∈ sampleManager.one_time_prekeys ∧
        (sampleManager.consume_prekey 0).1 = some kp ∧
        (sampleManager.consume_prekey 0).2.one_time_prekeys.length + 1
          = sampleManager.one_time_prekeys.length ∧
        (sampleManager.consume_prekey 0).2.consume_prekey 0
          = (none, (sampleManager.consume_prekey 0).2)) ∧
    (0 ∉ sampleManager.one_time_prekeys.map Prod.fst →
      sampleManager.consume_prekey 0 = (none, sampleManager))) :=
  ⟨by decide, consume_prekey_correct sampleManager 0 (by decide)⟩

/-- Claim C9: with next id n and batch size b (no u32 overflow, n + b below
2^32), replenishment returns exactly b public records with ids n, n+1, ...,
n+b-1, appends the matching key pairs to the pool, and advances the next id
to n + b. -/
theorem replenish_correct (P : X3dhPrims) (m : PreKeyManager)
    (gen : Nat → Curve25519KeyPair)
    (hov : m.next_prekey_id + m.config.replenishment_batch_size < 4294967296) :
    (m.replenish P gen).1
      = (List.range m.config.replenishment_batch_size).map
          (fun i => OneTimePreKey.new P (m.next_prekey_id + i) (gen i)) ∧
    (m.replenish P gen).1.length = m.config.replenishment_batch_size ∧
    (m.replenish P gen).2.one_time_prekeys
      = m.one_time_prekeys ++ (List.range m.config.replenishment_batch_size).map
          (fun i => (m.next_prekey_id + i, gen i)) ∧
    (m.replenish P gen).2.next_prekey_id
      = m.next_prekey_id + m.config.replenishment_batch_size := by
  have hids : ∀ i ∈ List.range m.config.replenishment_batch_size,
      (m.next_prekey_id + i) % 4294967296 = m.next_prekey_id + i := by
    intro i hi
    rw [List.mem_range] at hi
    exact Nat.mod_eq_of_lt (by omega)
  have hbatch : PreKeyManager.generate_prekey_batch m.next_prekey_id
      m.config.replenishment_batch_size gen
      = (List.range m.config.replenishment_batch_size).map
          (fun i => (m.next_prekey_id + i, gen i)) := by
    unfold PreKeyManager.generate_prekey_batch
    exact List.map_congr_left fun i hi => by rw [hids i hi]
  refine ⟨?_, ?_, ?_, ?_⟩
  · simp [PreKeyManager.replenish, hbatch, List.map_map, Function.comp]
  · simp [PreKeyManager.replenish, PreKeyManager.generate_prekey_batch]
  · simp [PreKeyManager.replenish, hbatch]
  · simp only [PreKeyManager.replenish]
    exact Nat.mod_eq_of_lt hov

/-- Witness for claim C9 on the closed sample manager (n = 2, b = 2). -/
theorem replenish_correct_witness :
    (sampleManager.next_prekey_id
      + sampleManager.config.replenishment_batch_size < 4294967296) ∧
    ((sampleManager.replenish toyX3dh (fun i => { public := i, secret := i })).1
      = (List.range sampleManager.config.replenishment_batch_size).map
          (fun i => OneTimePreKey.new toyX3dh (sampleManager.next_prekey_id + i)
            { public := i, secret := i }) ∧
    (sampleManager.replenish toyX3dh (fun i => { public := i, secret := i })).1.length
      = sampleManager.config.replenishment_batch_size ∧
    (sampleManager.replenish toyX3dh (fun i => { public := i, secret := i })).2.one_time_prekeys
      = sampleManager.one_time_prekeys
        ++ (List.range sampleManager.config.replenishment_batch_size).map
          (fun i => (sampleManager.next_prekey_id + i,
            ({ public := i, secret := i } : Curve25519KeyPair))) ∧
    (sampleManager.replenish toyX3dh (fun i => { public := i, secret := i })).2.next_prekey_id
      = sampleManager.next_prekey_id + sampleManager.config.replenishment_batch_size) :=
  ⟨by decide,
   replenish_correct toyX3dh sampleManager (fun i => { public := i, secret := i })
     (by decide)⟩


/-- Shape of the serialized envelope with a sender identity present. -/
theorem hybrid_to_bytes_some_shape (mode : EncryptionMode) (ct u : Bytes) :
    HybridEncryptedMessage.to_bytes
        { mode := mode, ciphertext := ct, sender_identity := some u }
      = (match mode with
         | EncryptionMode.Legacy => 0
         | EncryptionMode.Signal => 1) :: (u.length % 256) :: (u ++ ct) := by
  cases mode <;> simp [HybridEncryptedMessage.to_bytes]

/-- Shape of the serialized envelope with no sender identity. -/
theorem hybrid_to_bytes_none_shape (mode : EncryptionMode) (ct : Bytes) :
    HybridEncryptedMessage.to_bytes
        { mode := mode, ciphertext := ct, sender_identity := none }
      = (match mode with
         | EncryptionMode.Legacy => 0
         | EncryptionMode.Signal => 1) :: 0 :: ct := by
  cases mode <;> simp [HybridEncryptedMessage.to_bytes]

/-- Unfolding of envelope parsing on a byte string of length at least two. -/
theorem hybrid_from_bytes_cons (b0 identity_len : Nat) (rest : Bytes) :
    HybridEncryptedMessage.from_bytes (b0 :: identity_len :: rest)
      = match (if b0 = 0 then some EncryptionMode.Legacy
               else if b0 = 1 then some EncryptionMode.Signal else none) with
        | none => .error (CryptoError.DecryptionError "Unknown version")
        | some mode =>
          if rest.length < identity_len then
            .error (CryptoError.DecryptionError "Message truncated")
          else
            .ok { mode := mode
                  ciphertext := rest.drop identity_len
                  sender_identity :=
                    if identity_len > 0 then some (rest.take identity_len) else none } :=
  rfl

/-- Claim C10: the hybrid envelope round-trips exactly when the sender
identity is absent or has length 1 to 255; an empty identity comes back as
absent; an identity longer than 255 bytes has its length prefix written
modulo 256, so the round trip does not reconstruct the message. -/
theorem hybrid_envelope_roundtrip (mode : EncryptionMode) (ct u v : Bytes)
    (hu1 : 0 < u.length) (hu2 : u.length ≤ 255) (hlong : 255 < v.length) :
    HybridEncryptedMessage.from_bytes
        (HybridEncryptedMessage.to_bytes
          { mode := mode, ciphertext := ct, sender_identity := none })
      = .ok { mode := mode, ciphertext := ct, sender_identity := none } ∧
    HybridEncryptedMessage.from_bytes
        (HybridEncryptedMessage.to_bytes
          { mode := mode, ciphertext := ct, sender_identity := some u })
      = .ok { mode := mode, ciphertext := ct, sender_identity := some u } ∧
    HybridEncryptedMessage.from_bytes
        (HybridEncryptedMessage.to_bytes
          { mode := mode, ciphertext := ct, sender_identity := some [] })
      = .ok { mode := mode, ciphertext := ct, sender_identity := none } ∧
    HybridEncryptedMessage.from_bytes
        (HybridEncryptedMessage.to_bytes
          { mode := mode, ciphertext := ct, sender_identity := some v })
      ≠ .ok { mode := mode, ciphertext := ct, sender_identity := some v } := by
  refine ⟨?_, ?_, ?_, ?_⟩
  · rw [hybrid_to_bytes_none_shape]
    cases mode <;> simp [hybrid_from_bytes_cons]
  · rw [hybrid_to_bytes_some_shape]
    have hlenu : u.length % 256 = u.length := Nat.mod_eq_of_lt (by omega)
    rw [hlenu]
    have hnt : ¬ ((u ++ ct).length < u.length) := by
      rw [List.length_append]; omega
    have hnt2 : ¬ (u.length + ct.length < u.length) := by omega
    cases mode <;>
      simp [hybrid_from_bytes_cons, hnt, hnt2, hu1, List.take_left, List.drop_left]
  · rw [hybrid_to_bytes_some_shape]
    cases mode <;> simp [hybrid_from_bytes_cons]
  · rw [hybrid_to_bytes_some_shape]
    have hmodlt : v.length % 256 < v.length := by
      have h1 : v.length % 256 < 256 := Nat.mod_lt _ (by omega)
      omega
    have hnt : ¬ ((v ++ ct).length < v.length % 256) := by
      rw [List.length_append]; omega
    cases mode <;>
    · rw [hybrid_from_bytes_cons]
      simp only [reduceIte, Nat.one_ne_zero, if_false, if_true]
      rw [if_neg hnt]
      intro h
      injection h with h2
      have hsender := congrArg HybridEncryptedMessage.sender_identity h2
      by_cases hz : v.length % 256 = 0
      · rw [if_neg (by omega)] at hsender
        exact Option.noConfusion hsender
      · rw [if_pos (Nat.pos_of_ne_zero hz)] at hsender
        have hv := Option.some.inj hsender
        have hL := congrArg List.length hv
        rw [List.length_take, List.length_append] at hL
        omega

/-- Witness for claim C10 at closed identities of length 1 and 256. -/
theorem hybrid_envelope_roundtrip_witness :
    (0 < ([5] : Bytes).length) ∧ (([5] : Bytes).length ≤ 255) ∧
    (255 < (List.replicate 256 7 : Bytes).length) ∧
    (HybridEncryptedMessage.from_bytes
        (HybridEncryptedMessage.to_bytes
          { mode := EncryptionMode.Signal, ciphertext := [1, 2], sender_identity := none })
      = .ok { mode := EncryptionMode.Signal, ciphertext := [1, 2], sender_identity := none } ∧
    HybridEncryptedMessage.from_bytes
        (HybridEncryptedMessage.to_bytes
          { mode := EncryptionMode.Signal, ciphertext := [1, 2], sender_identity := some [5] })
      = .ok { mode := EncryptionMode.Signal, ciphertext := [1, 2], sender_identity := some [5] } ∧
    HybridEncryptedMessage.from_bytes
        (HybridEncryptedMessage.to_bytes
          { mode := EncryptionMode.Signal, ciphertext := [1, 2], sender_identity := some [] })
      = .ok { mode := EncryptionMode.Signal, ciphertext := [1, 2], sender_identity := none } ∧
    HybridEncryptedMessage.from_bytes
        (HybridEncryptedMessage.to_bytes
          { mode := EncryptionMode.Signal, ciphertext := [1, 2],
            sender_identity := some (List.replicate 256 7) })
      ≠ .ok { mode := EncryptionMode.Signal, ciphertext := [1, 2],
              sender_identity := some (List.replicate 256 7) }) :=
  ⟨by decide, by decide, by rw [List.length_replicate]; omega,
   hybrid_envelope_roundtrip EncryptionMode.Signal [1, 2] [5]
     (List.replicate 256 7) (by decide) (by decide) (by rw [List.length_replicate]; omega)⟩

/-- Claim C6 is refuted by the code: rotation overwrites the signed prekey
pair in place and the manager state retains no prior generation at all.
The only key-pair-valued fields of the state are the current signed prekey
(now the fresh pair) and the unchanged one-time pool, and
`get_signed_prekey_pair`, the sole access to a signed prekey pair for
responding, returns the fresh pair, so the previous pair is unrecoverable
by its id or otherwise. -/
theorem rotate_discards_previous_generation (P : X3dhPrims) (m : PreKeyManager)
    (fresh : Curve25519KeyPair) (now : Int)
    (hne : fresh ≠ m.signed_prekey)
    (hpool : m.signed_prekey ∉ m.one_time_prekeys.map Prod.snd) :
    (m.rotate_signed_prekey P fresh now).2.signed_prekey = fresh ∧
    (m.rotate_signed_prekey P fresh now).2.signed_prekey ≠ m.signed_prekey ∧
    (m.rotate_signed_prekey P fresh now).2.one_time_prekeys = m.one_time_prekeys ∧
    m.signed_prekey ∉ ((m.rotate_signed_prekey P fresh now).2.one_time_prekeys.map Prod.snd) ∧
    (m.rotate_signed_prekey P fresh now).2.get_signed_prekey_pair = fresh ∧
    (m.rotate_signed_prekey P fresh now).2.signed_prekey_id
      = (m.signed_prekey_id + 1) % 4294967296 := by
  refine ⟨rfl, ?_, rfl, ?_, rfl, rfl⟩
  · simpa [PreKeyManager.rotate_signed_prekey] using hne
  · simpa [PreKeyManager.rotate_signed_prekey] using hpool

/-- Witness for the rotation theorem on the closed sample manager. -/
theorem rotate_discards_previous_generation_witness :
    (({ public := 1, secret := 1 } : Curve25519KeyPair) ≠ sampleManager.signed_prekey) ∧
    (sampleManager.signed_prekey ∉ sampleManager.one_time_prekeys.map Prod.snd) ∧
    ((sampleManager.rotate_signed_prekey toyX3dh { public := 1, secret := 1 } 9).2.signed_prekey
        = { public := 1, secret := 1 } ∧
    (sampleManager.rotate_signed_prekey toyX3dh { public := 1, secret := 1 } 9).2.signed_prekey
        ≠ sampleManager.signed_prekey ∧
    (sampleManager.rotate_signed_prekey toyX3dh { public := 1, secret := 1 } 9).2.one_time_prekeys
        = sampleManager.one_time_prekeys ∧
    sampleManager.signed_prekey ∉
      ((sampleManager.rotate_signed_prekey toyX3dh { public := 1, secret := 1 } 9).2.one_time_prekeys.map Prod.snd) ∧
    (sampleManager.rotate_signed_prekey toyX3dh { public := 1, secret := 1 } 9).2.get_signed_prekey_pair
        = { public := 1, secret := 1 } ∧
    (sampleManager.rotate_signed_prekey toyX3dh { public := 1, secret := 1 } 9).2.signed_prekey_id
        = (sampleManager.signed_prekey_id + 1) % 4294967296) :=
  ⟨by decide, by decide,
   rotate_discards_previous_generation toyX3dh sampleManager
     { public := 1, secret := 1 } 9 (by decide) (by decide)⟩

/-- Claim C3: when decryption through an existing session fails, the whole
service state is unchanged: the cached session (its `messages_received`
included) is exactly the prior one and the vault rows are untouched, so
subsequent well-formed messages decrypt as if the failure never happened;
the error itself is the value returned to the caller. -/
theorem decrypt_failure_atomic (P : OlmPrims) (st : CryptoServiceState)
    (peer_id : String) (their_identity_key : Option Bytes) (ciphertext : Bytes)
    (s : RatchetSession) (e : CryptoError)
    (hs : st.sessions peer_id = some s)
    (he : (CryptoService.decrypt P st peer_id their_identity_key ciphertext).1 = .error e) :
    (CryptoService.decrypt P st peer_id their_identity_key ciphertext).2 = st ∧
    (CryptoService.decrypt P st peer_id their_identity_key ciphertext).2.sessions peer_id
      = some s ∧
    (CryptoService.decrypt P st peer_id their_identity_key ciphertext).2.store = st.store := by
  simp only [CryptoService.decrypt, hs] at he ⊢
  cases hfb : EncryptedMessage.from_bytes ciphertext with
  | error e1 =>
    simp [hfb, hs]
  | ok encrypted =>
    cases hto : encrypted.to_olm P with
    | error e1 =>
      simp [hfb, hto, hs]
    | ok olm_message =>
      cases hdec : P.innerDecrypt s.inner olm_message with
      | some pr =>
        exfalso
        simp [hfb, hto, RatchetSession.decrypt, hdec] at he
      | none =>
        have hfun : (fun p => if p = peer_id then some s else st.sessions p)
            = st.sessions := by
          funext p
          by_cases hp : p = peer_id
          · rw [if_pos hp, hp, hs]
          · rw [if_neg hp]
        simp only [hfb, hto, RatchetSession.decrypt, hdec]
        refine ⟨by rw [hfun], by simp, by simp⟩

/-- Witness for claim C3 on a closed state whose inner decrypt fails. -/
theorem decrypt_failure_atomic_witness :
    (sampleServiceState.sessions "peer" = some sampleSession) ∧
    ((CryptoService.decrypt toyOlmFail sampleServiceState "peer" none [1, 9]).1
      = .error (CryptoError.DecryptionError "vodozemac decryption failed")) ∧
    ((CryptoService.decrypt toyOlmFail sampleServiceState "peer" none [1, 9]).2
        = sampleServiceState ∧
    (CryptoService.decrypt toyOlmFail sampleServiceState "peer" none [1, 9]).2.sessions "peer"
        = some sampleSession ∧
    (CryptoService.decrypt toyOlmFail sampleServiceState "peer" none [1, 9]).2.store
        = sampleServiceState.store) :=
  ⟨by decide, rfl,
   decrypt_failure_atomic toyOlmFail sampleServiceState "peer" none [1, 9]
     sampleSession (CryptoError.DecryptionError "vodozemac decryption failed")
     (by decide) rfl⟩

/-- Every character the hex encoder emits is one of the sixteen lowercase
hex digits. -/
theorem hexEncode_chars_lowercase (bs : Bytes) :
    ∀ c ∈ (hexEncode bs).data, c ∈ hexChars := by
  intro c hc
  have hgetD : ∀ i : Nat, hexChars.getD i '0' ∈ hexChars := by
    intro i
    by_cases h : i < hexChars.length
    · rw [List.getD_eq_getElem hexChars '0' h]
      exact List.getElem_mem h
    · rw [List.getD_eq_default hexChars '0' (le_of_not_lt h)]
      decide
  have hc2 : c ∈ bs.flatMap byteToHex := hc
  rw [List.mem_flatMap] at hc2
  obtain ⟨b, _, hcb⟩ := hc2
  simp only [byteToHex, List.mem_cons, List.not_mem_nil, or_false] at hcb
  rcases hcb with h | h <;> rw [h] <;> exact hgetD _

/-- Counterexample for claim C7 as stated: toward a peer whose vodozemac
account has Curve25519 identity key bytes `[5]` and Ed25519 signing key
bytes `[6]`, the session created by `create_outbound_session` carries
peer_id "05", the hex of the Curve25519 key, which differs from "06", the
lowercase hex of the peer Ed25519 identity public key. -/
theorem peer_id_not_ed25519_hex :
    OlmAccount.create_outbound_session toyOlmPeer { inner := 0 }
        (toyOlmPeer.accountIdentityKey 5) 7
      = .ok { inner := 0, peer_id := "05", messages_sent := 0, messages_received := 0 } ∧
    hexEncode (toyOlmPeer.edEncode (toyOlmPeer.accountEdKey 5)) = "06" ∧
    ("05" : String) ≠ "06" :=
  ⟨rfl, rfl, by decide⟩

/-- Claim C7, amended: the peer_id of every session created by
`create_outbound_session` or `create_inbound_session` is the lowercase hex
encoding of the peer 32-byte Curve25519 identity key that the session was
created from (not the Ed25519 signing key), `save_session` uses exactly
that peer_id as the vault key, and the encoding uses only lowercase hex
digit characters. -/
theorem peer_id_is_curve25519_hex (P : OlmPrims) (a : OlmAccount)
    (their_identity_key their_one_time_key : Nat) (message : OlmMessage)
    (stst : StoreState) (k : PickleKey) (s0 : RatchetSession) :
    (∀ s, OlmAccount.create_outbound_session P a their_identity_key their_one_time_key
        = .ok s → s.peer_id = hexEncode (P.encodeCurve their_identity_key)) ∧
    (∀ a2 s pt, OlmAccount.create_inbound_session P a their_identity_key message
        = .ok (a2, s, pt) → s.peer_id = hexEncode (P.encodeCurve their_identity_key)) ∧
    ((SessionStore.save_session P stst k s0).peer_sessions s0.peer_id ≠ none) ∧
    (∀ p, p ≠ s0.peer_id →
      (SessionStore.save_session P stst k s0).peer_sessions p = stst.peer_sessions p) ∧
    (∀ c ∈ (hexEncode (P.encodeCurve their_identity_key)).data, c ∈ hexChars) := by
  refine ⟨?_, ?_, ?_, ?_, hexEncode_chars_lowercase _⟩
  · intro s h
    simp only [OlmAccount.create_outbound_session, Except.ok.injEq] at h
    rw [← h]
    rfl
  · intro a2 s pt h
    cases message with
    | Normal m => simp [OlmAccount.create_inbound_session] at h
    | PreKey m =>
      simp only [OlmAccount.create_inbound_session] at h
      cases hc : P.createInbound a.inner their_identity_key m with
      | none => rw [hc] at h; simp at h
      | some tr =>
        obtain ⟨inner2, session_inner, plaintext⟩ := tr
        rw [hc] at h
        simp only [Except.ok.injEq, Prod.mk.injEq] at h
        rw [← h.2.1]
        rfl
  · simp only [SessionStore.save_session, RatchetSession.pickle]
    cases hrow : stst.peer_sessions s0.peer_id <;> simp [hrow]
  · intro p hp
    simp only [SessionStore.save_session, RatchetSession.pickle]
    simp [if_neg hp]

/-- Witness for the amended claim C7 at a closed outbound session. -/
theorem peer_id_is_curve25519_hex_witness :
    (OlmAccount.create_outbound_session toyOlmPeer { inner := 0 } 5 7
      = .ok { inner := 0, peer_id := "05", messages_sent := 0, messages_received := 0 }) ∧
    ({ inner := 0, peer_id := "05", messages_sent := 0,
       messages_received := 0 } : RatchetSession).peer_id
      = hexEncode (toyOlmPeer.encodeCurve 5) :=
  ⟨rfl,
   (peer_id_is_curve25519_hex toyOlmPeer { inner := 0 } 5 7 (OlmMessage.PreKey 0)
      sampleStore [] sampleSession).1
     { inner := 0, peer_id := "05", messages_sent := 0, messages_received := 0 }
     rfl⟩

/-- Flipping a bit inside the byte string changes it. -/
theorem flipBit_ne (bs : Bytes) (i : Nat) (h : i / 8 < bs.length) :
    flipBit bs i ≠ bs := by
  intro heq
  unfold flipBit at heq
  have h2 := congrArg (fun l => l.getD (i / 8) 0) heq
  simp only at h2
  rw [List.getD_eq_getElem _ _ (by simpa using h)] at h2
  rw [List.getElem_set_self _] at h2
  have h3 : (bs.getD (i / 8) 0) ^^^ ((bs.getD (i / 8) 0) ^^^ 2 ^ (i % 8))
      = (bs.getD (i / 8) 0) ^^^ (bs.getD (i / 8) 0) :=
    congrArg (fun y => (bs.getD (i / 8) 0) ^^^ y) h2
  rw [Nat.xor_cancel_left, Nat.xor_self] at h3
  exact absurd h3 (by positivity)

/-- Flipping a bit preserves the length of the byte string. -/
theorem flipBit_length (bs : Bytes) (i : Nat) :
    (flipBit bs i).length = bs.length := by
  simp [flipBit]

/-- Claim C4: bundle verification gates X3DH initiation: any verification
error is returned unchanged by `x3dh_initiate` (the DH stages are never
reached), and for a bundle that verifies, flipping any bit of the signed
prekey signature or of its public key makes `PreKeyBundle::verify` fail
with the signature error, assuming strong unforgeability of the Ed25519
verifier (at most one accepted signature per message and at most one
accepted message per signature). -/
theorem bundle_signature_gate (P : X3dhPrims) (b : PreKeyBundle)
    (ikA : IdentityKeyPair) (ek : Curve25519KeyPair) (e : CryptoError) (i : Nat)
    (husig : ∀ pk m s1 s2, P.edVerify pk m s1 = true → P.edVerify pk m s2 = true → s1 = s2)
    (humsg : ∀ pk m1 m2 s, P.edVerify pk m1 s = true → P.edVerify pk m2 s = true → m1 = m2) :
    (PreKeyBundle.verify P b = .error e → x3dh_initiate P ikA b ek = .error e) ∧
    (PreKeyBundle.verify P b = .ok () → i < 8 * b.signed_prekey.signature.length →
      PreKeyBundle.verify P
          { b with signed_prekey :=
              { b.signed_prekey with signature := flipBit b.signed_prekey.signature i } }
        = .error (CryptoError.SignatureError "Signature verification failed")) ∧
    (PreKeyBundle.verify P b = .ok () → i < 8 * b.signed_prekey.public_key.length →
      PreKeyBundle.verify P
          { b with signed_prekey :=
              { b.signed_prekey with public_key := flipBit b.signed_prekey.public_key i } }
        = .error (CryptoError.SignatureError "Signature verification failed")) := by
  refine ⟨?_, ?_, ?_⟩
  · intro hve
    simp [x3dh_initiate, hve]
  · intro hok hi
    cases hgid : b.get_identity_key P with
    | error e1 =>
      simp only [PreKeyBundle.verify, hgid] at hok
      exact Except.noConfusion hok
    | ok ik =>
      simp only [PreKeyBundle.verify, hgid] at hok
      simp only [SignedPreKey.verify] at hok
      by_cases hlen : b.signed_prekey.signature.length = 64
      · rw [if_pos hlen] at hok
        by_cases hvf : P.edVerify ik b.signed_prekey.public_key b.signed_prekey.signature = true
        · have hne : flipBit b.signed_prekey.signature i ≠ b.signed_prekey.signature :=
            flipBit_ne _ _ (by omega)
          have hvf2 : P.edVerify ik b.signed_prekey.public_key
              (flipBit b.signed_prekey.signature i) = false := by
            cases hb : P.edVerify ik b.signed_prekey.public_key
                (flipBit b.signed_prekey.signature i) with
            | false => rfl
            | true => exact absurd (husig _ _ _ _ hb hvf) hne
          have hgid2 : PreKeyBundle.get_identity_key P
              { b with signed_prekey :=
                  { b.signed_prekey with
                    signature := flipBit b.signed_prekey.signature i } }
              = .ok ik := hgid
          simp only [PreKeyBundle.verify, hgid2]
          simp only [SignedPreKey.verify]
          simp [flipBit_length, hlen, hvf2]
        · rw [if_neg hvf] at hok
          simp at hok
      · rw [if_neg hlen] at hok
        simp at hok
  · intro hok hi
    cases hgid : b.get_identity_key P with
    | error e1 =>
      simp only [PreKeyBundle.verify, hgid] at hok
      exact Except.noConfusion hok
    | ok ik =>
      simp only [PreKeyBundle.verify, hgid] at hok
      simp only [SignedPreKey.verify] at hok
      by_cases hlen : b.signed_prekey.signature.length = 64
      · rw [if_pos hlen] at hok
        by_cases hvf : P.edVerify ik b.signed_prekey.public_key b.signed_prekey.signature = true
        · have hne : flipBit b.signed_prekey.public_key i ≠ b.signed_prekey.public_key :=
            flipBit_ne _ _ (by omega)
          have hvf2 : P.edVerify ik (flipBit b.signed_prekey.public_key i)
              b.signed_prekey.signature = false := by
            cases hb : P.edVerify ik (flipBit b.signed_prekey.public_key i)
                b.signed_prekey.signature with
            | false => rfl
            | true => exact absurd (humsg _ _ _ _ hb hvf) hne
          have hgid2 : PreKeyBundle.get_identity_key P
              { b with signed_prekey :=
                  { b.signed_prekey with
                    public_key := flipBit b.signed_prekey.public_key i } }
              = .ok ik := hgid
          simp only [PreKeyBundle.verify, hgid2]
          simp only [SignedPreKey.verify]
          simp [hlen, hvf2]
        · rw [if_neg hvf] at hok
          simp at hok
      · rw [if_neg hlen] at hok
        simp at hok

/-- Appending the 1-terminated zero padding is injective in the message. -/
theorem append_one_replicate_inj (m1 : Bytes) :
    ∀ (m2 : Bytes) (a b : Nat),
      m1 ++ (1 :: List.replicate a 0) = m2 ++ (1 :: List.replicate b 0) → m1 = m2 := by
  induction m1 with
  | nil =>
    intro m2 a b h
    cases m2 with
    | nil => rfl
    | cons c t =>
      simp only [List.nil_append, List.cons_append, List.cons.injEq] at h
      exfalso
      have h1 : (1 : Nat) ∈ t ++ 1 :: List.replicate b 0 := by simp
      rw [← h.2] at h1
      have := List.eq_of_mem_replicate h1
      omega
  | cons c t ih =>
    intro m2 a b h
    cases m2 with
    | nil =>
      simp only [List.nil_append, List.cons_append, List.cons.injEq] at h
      exfalso
      have h1 : (1 : Nat) ∈ t ++ 1 :: List.replicate a 0 := by simp
      rw [h.2] at h1
      have := List.eq_of_mem_replicate h1
      omega
    | cons c2 t2 =>
      simp only [List.cons_append, List.cons.injEq] at h
      rw [h.1, ih t2 a b h.2]

/-- The toy verifier accepts at most one signature per message. -/
theorem toy_unique_sig (pk : Nat) (m s1 s2 : Bytes)
    (h1 : toyX3dh.edVerify pk m s1 = true) (h2 : toyX3dh.edVerify pk m s2 = true) :
    s1 = s2 := by
  simp only [toyX3dh, decide_eq_true_eq] at h1 h2
  rw [h1, h2]

/-- The toy verifier accepts at most one message per signature. -/
theorem toy_unique_msg (pk : Nat) (m1 m2 s : Bytes)
    (h1 : toyX3dh.edVerify pk m1 s = true) (h2 : toyX3dh.edVerify pk m2 s = true) :
    m1 = m2 := by
  simp only [toyX3dh, decide_eq_true_eq] at h1 h2
  rw [h1] at h2
  simp only [toySig, List.cons.injEq] at h2
  exact append_one_replicate_inj m1 m2 _ _ h2.2

/-- Witness for claim C4 on the closed sample bundle: the bundle verifies,
and flipping bit 0 of the signature or of the signed prekey public key
makes verification fail with the signature error. -/
theorem bundle_signature_gate_witness :
    (PreKeyBundle.verify toyX3dh sampleBundle = .ok ()) ∧
    (0 < 8 * sampleBundle.signed_prekey.signature.length) ∧
    (0 < 8 * sampleBundle.signed_prekey.public_key.length) ∧
    (PreKeyBundle.verify toyX3dh
        { sampleBundle with signed_prekey :=
            { sampleBundle.signed_prekey with
              signature := flipBit sampleBundle.signed_prekey.signature 0 } }
      = .error (CryptoError.SignatureError "Signature verification failed")) ∧
    (PreKeyBundle.verify toyX3dh
        { sampleBundle with signed_prekey :=
            { sampleBundle.signed_prekey with
              public_key := flipBit sampleBundle.signed_prekey.public_key 0 } }
      = .error (CryptoError.SignatureError "Signature verification failed")) :=
  ⟨rfl, by decide, by decide,
   (bundle_signature_gate toyX3dh sampleBundle sampleIkA sampleEk
      (CryptoError.InternalError "unused") 0
      (fun pk m s1 s2 => toy_unique_sig pk m s1 s2)
      (fun pk m1 m2 s => toy_unique_msg pk m1 m2 s)).2.1 rfl (by decide),
   (bundle_signature_gate toyX3dh sampleBundle sampleIkA sampleEk
      (CryptoError.InternalError "unused") 0
      (fun pk m s1 s2 => toy_unique_sig pk m s1 s2)
      (fun pk m1 m2 s => toy_unique_msg pk m1 m2 s)).2.2 rfl (by decide)⟩

/-- Parsing the identity key of a bundle built from an encoded Ed25519 key
recovers the key. -/
theorem bundle_get_identity_key_encode (P : X3dhPrims) (k : Nat)
    (spk : SignedPreKey) (otk : Option OneTimePreKey) :
    PreKeyBundle.get_identity_key P
        { identity_key := P.encodeEdPub k, signed_prekey := spk, one_time_prekey := otk }
      = .ok k := by
  simp [PreKeyBundle.get_identity_key, P.encode_ed_len, P.parse_encode_ed]

/-- A freshly produced signed prekey record verifies under the public key
of the identity that signed it. -/
theorem signed_prekey_new_verify_ok (P : X3dhPrims) (key_id : Nat)
    (kp : Curve25519KeyPair) (ik : IdentityKeyPair) (now : Int)
    (hik : ik.wf P) :
    SignedPreKey.verify P (SignedPreKey.new P key_id kp ik now) ik.public = .ok () := by
  have hlen := P.sign_len ik.secret (P.encodeCurvePub kp.public) (P.encode_curve_len _)
  have hv : P.edVerify ik.public (P.encodeCurvePub kp.public)
      (P.sign ik.secret (P.encodeCurvePub kp.public)) = true := by
    rw [hik]
    exact P.verify_sign _ _
  simp [SignedPreKey.verify, SignedPreKey.new, hlen, hv]

/-- The public key of a freshly produced signed prekey record parses back. -/
theorem signed_prekey_new_get_public (P : X3dhPrims) (key_id : Nat)
    (kp : Curve25519KeyPair) (ik : IdentityKeyPair) (now : Int) :
    SignedPreKey.get_public_key P (SignedPreKey.new P key_id kp ik now) = .ok kp.public := by
  simp [SignedPreKey.get_public_key, SignedPreKey.new, P.encode_curve_len,
    P.parse_encode_curve]

/-- The public key of a freshly produced one-time prekey record parses back. -/
theorem otk_new_get_public (P : X3dhPrims) (key_id : Nat) (kp : Curve25519KeyPair) :
    OneTimePreKey.get_public_key P (OneTimePreKey.new P key_id kp) = .ok kp.public := by
  simp [OneTimePreKey.get_public_key, OneTimePreKey.new, P.encode_curve_len,
    P.parse_encode_curve]

/-- Claim C1: X3DH is symmetric.  For well-formed identity pairs of both
parties, a well-formed signed prekey and ephemeral pair and an optional
well-formed one-time prekey pair, initiation against the bundle built from
the responder keys succeeds and the responder mirror computation returns
exactly the initiator shared secret. -/
theorem x3dh_symmetry (P : X3dhPrims) (ikA ikB : IdentityKeyPair)
    (spkB ek : Curve25519KeyPair) (opkB : Option Curve25519KeyPair)
    (spk_id otk_id : Nat) (now : Int)
    (hA : ikA.wf P) (hB : ikB.wf P) (hS : spkB.wf P) (hE : ek.wf P)
    (hO : ∀ kp, opkB = some kp → kp.wf P) :
    ∃ r : X3dhResult,
      x3dh_initiate P ikA
          { identity_key := P.encodeEdPub ikB.public
            signed_prekey := SignedPreKey.new P spk_id spkB ikB now
            one_time_prekey := opkB.map (fun kp => OneTimePreKey.new P otk_id kp) } ek
        = .ok r ∧
      x3dh_respond P ikB spkB opkB ikA.public ek.public = .ok r.shared_secret := by
  have hid := bundle_get_identity_key_encode P ikB.public
    (SignedPreKey.new P spk_id spkB ikB now)
    (opkB.map (fun kp => OneTimePreKey.new P otk_id kp))
  have hver : PreKeyBundle.verify P
      { identity_key := P.encodeEdPub ikB.public
        signed_prekey := SignedPreKey.new P spk_id spkB ikB now
        one_time_prekey := opkB.map (fun kp => OneTimePreKey.new P otk_id kp) }
      = .ok () := by
    simp only [PreKeyBundle.verify, hid]
    exact signed_prekey_new_verify_ok P spk_id spkB ikB now hB
  have hspk := signed_prekey_new_get_public P spk_id spkB ikB now
  have hconvA : P.convPub ikA.public = some (P.curvePub (P.convSec ikA.secret)) := by
    rw [hA]
    exact P.conv_compat _
  have hconvB : P.convPub ikB.public = some (P.curvePub (P.convSec ikB.secret)) := by
    rw [hB]
    exact P.conv_compat _
  have e1 : P.dh spkB.secret (P.curvePub (P.convSec ikA.secret))
      = P.dh (P.convSec ikA.secret) spkB.public := by
    rw [P.dh_comm spkB.secret (P.convSec ikA.secret), ← hS]
  have e2 : P.dh (P.convSec ikB.secret) ek.public
      = P.dh ek.secret (P.curvePub (P.convSec ikB.secret)) := by
    rw [hE, P.dh_comm (P.convSec ikB.secret) ek.secret]
  have e3 : P.dh spkB.secret ek.public = P.dh ek.secret spkB.public := by
    rw [hE, P.dh_comm spkB.secret ek.secret, ← hS]
  cases opkB with
  | none =>
    simp only [Option.map_none'] at hver hid
    simp only [Option.map_none', x3dh_initiate, hver, hid, hspk,
      convert_ed25519_to_curve25519_public, hconvB,
      convert_ed25519_to_curve25519_secret, Curve25519KeyPair.diffie_hellman,
      kdf_x3dh]
    refine ⟨_, rfl, ?_⟩
    simp only [x3dh_respond, convert_ed25519_to_curve25519_public, hconvA,
      convert_ed25519_to_curve25519_secret, Curve25519KeyPair.diffie_hellman,
      Option.map_none', kdf_x3dh]
    rw [e1, e2, e3]
  | some opk =>
    have hopk : opk.wf P := hO opk rfl
    have hotat := otk_new_get_public P otk_id opk
    have e4 : P.dh opk.secret ek.public = P.dh ek.secret opk.public := by
      rw [hE, P.dh_comm opk.secret ek.secret, ← hopk]
    simp only [Option.map_some'] at hver hid
    simp only [Option.map_some', x3dh_initiate, hver, hid, hspk,
      convert_ed25519_to_curve25519_public, hconvB,
      convert_ed25519_to_curve25519_secret, Curve25519KeyPair.diffie_hellman,
      hotat, kdf_x3dh]
    refine ⟨_, rfl, ?_⟩
    simp only [x3dh_respond, convert_ed25519_to_curve25519_public, hconvA,
      convert_ed25519_to_curve25519_secret, Curve25519KeyPair.diffie_hellman,
      Option.map_some', kdf_x3dh]
    rw [e1, e2, e3, e4]

/-- Witness for claim C1 on closed toy keys, with a one-time prekey used. -/
theorem x3dh_symmetry_witness :
    (sampleIkA.wf toyX3dh) ∧ (sampleIkB.wf toyX3dh) ∧ (sampleSpkB.wf toyX3dh) ∧
    (sampleEk.wf toyX3dh) ∧ (∀ kp, some sampleOpkB = some kp → kp.wf toyX3dh) ∧
    (∃ r : X3dhResult,
      x3dh_initiate toyX3dh sampleIkA
          { identity_key := toyX3dh.encodeEdPub sampleIkB.public
            signed_prekey := SignedPreKey.new toyX3dh 1 sampleSpkB sampleIkB 0
            one_time_prekey :=
              (some sampleOpkB).map (fun kp => OneTimePreKey.new toyX3dh 3 kp) }
          sampleEk
        = .ok r ∧
      x3dh_respond toyX3dh sampleIkB sampleSpkB (some sampleOpkB)
          sampleIkA.public sampleEk.public
        = .ok r.shared_secret) :=
  ⟨rfl, rfl, rfl, rfl, fun kp h => by cases h; rfl,
   x3dh_symmetry toyX3dh sampleIkA sampleIkB sampleSpkB sampleEk (some sampleOpkB)
     1 3 0 rfl rfl rfl rfl (fun kp h => by cases h; rfl)⟩
